import Mathlib

/-!
# Verification of the MCP weather chat client (`src/client.py`)

Shallow embedding of the query router (`MCPClient.process_query`), the tool
invoker (`MCPClient.call_mcp_tool`), the chat loop (`MCPClient.chat_loop`) and
the lifecycle (`main`) of `src/client.py`.

Strings are embedded as `List Char`.  Python's `str.lower` / `str.upper` /
`str.strip` are modelled on the ASCII range (the trigger phrases and all fixed
messages are ASCII); `float(...)` is modelled by `pyFloatOf`, which follows
CPython's grammar for ASCII float literals (optional sign, digits with
underscores between digits, optional fraction and exponent, and the special
words inf / infinity / nan, case-insensitively) and carries the parsed value
exactly as a decimal mantissa and shift — binary rounding of the value is
irrelevant to the routing behaviour being verified.  External collaborators (the MCP session and the
ollama chat model) are oracles passed as function arguments, and the raising
of a Python exception is modelled with `Except`.
-/

set_option autoImplicit false

abbrev Chars := List Char

/-- `s.data` of a fixed string literal, as the character list used throughout. -/
def strData (s : String) : Chars := s.data

/-- Python `str.strip` whitespace predicate (ASCII whitespace). -/
def pyIsSpace (c : Char) : Bool :=
  c == ' ' || c == '\t' || c == '\n' || c == '\r' || c == '\x0b' || c == '\x0c'

/-- Python `str.strip()`: remove leading and trailing whitespace. -/
def pyStrip (s : Chars) : Chars :=
  ((s.dropWhile pyIsSpace).reverse.dropWhile pyIsSpace).reverse

/-- Python `str.lower()` (ASCII case mapping). -/
def pyLower (s : Chars) : Chars := s.map Char.toLower

/-- Python `str.upper()` (ASCII case mapping). -/
def pyUpper (s : Chars) : Chars := s.map Char.toUpper

/-- Python substring containment `sep in s`. -/
def occurs (sep : Chars) : Chars → Bool
  | [] => sep.isEmpty
  | c :: s => sep.isPrefixOf (c :: s) || occurs sep s

/-- Fuel-driven core of `s.split(sep)[-1]`: scan for the leftmost occurrence
of `sep`, consume it and restart; the final segment is what remains after the
last separator consumed by this non-overlapping left-to-right scan.  The fuel
is only there to make the recursion structural; `s.length` fuel suffices. -/
def splitLastF (sep : Chars) : Nat → Chars → Chars
  | _, [] => []
  | 0, s => s
  | fuel + 1, c :: s =>
    match sep with
    | [] => c :: s
    | d :: ds =>
      if (d :: ds).isPrefixOf (c :: s) then splitLastF (d :: ds) fuel (s.drop ds.length)
      else if occurs (d :: ds) s then splitLastF (d :: ds) fuel s
      else c :: s

/-- Python `s.split(sep)[-1]` for non-empty `sep`. -/
def splitLast (sep s : Chars) : Chars := splitLastF sep s.length s

/-- Tail of a run of digits possibly separated by single underscores
(Python numeric-literal underscore rule: an underscore only between digits). -/
def digRunTail : Chars → Bool
  | [] => true
  | ['_'] => false
  | '_' :: d :: t => d.isDigit && digRunTail t
  | c :: t => c.isDigit && digRunTail t

/-- Accumulate a run of digits with underscores between digits:
`digitsGo v n s` returns the accumulated value, the digit count and the
unconsumed rest.  It never consumes a leading underscore, a trailing
underscore, or a doubled underscore, so ill-placed underscores are left over
and make the whole literal invalid, as in CPython. -/
def digitsGo : Nat → Nat → Chars → Nat × Nat × Chars
  | v, n, [] => (v, n, [])
  | v, n, '_' :: d :: t =>
    if d.isDigit then digitsGo (10 * v + (d.toNat - 48)) (n + 1) t
    else (v, n, '_' :: d :: t)
  | v, n, ['_'] => (v, n, ['_'])
  | v, n, c :: t =>
    if c.isDigit then digitsGo (10 * v + (c.toNat - 48)) (n + 1) t
    else (v, n, c :: t)

/-- Consume a digit run that must begin with a digit; `none` otherwise. -/
def runDigits (s : Chars) : Option (Nat × Nat × Chars) :=
  match s with
  | c :: _ => if c.isDigit then some (digitsGo 0 0 s) else none
  | [] => none

/-- Optional exponent part of a CPython float literal, applied to a mantissa
`m` with decimal shift `base` (denoted value `m * 10 ^ (base + exponent)`);
the whole rest must be consumed. -/
def parseExp (m : Nat) (base : Int) (r : Chars) : Option (Nat × Int) :=
  match r with
  | [] => some (m, base)
  | c :: t =>
    if c == 'e' || c == 'E' then
      match t with
      | '+' :: u =>
        match runDigits u with
        | some (ev, _, r3) => if r3 = [] then some (m, base + ev) else none
        | none => none
      | '-' :: u =>
        match runDigits u with
        | some (ev, _, r3) => if r3 = [] then some (m, base - ev) else none
        | none => none
      | u =>
        match runDigits u with
        | some (ev, _, r3) => if r3 = [] then some (m, base + ev) else none
        | none => none
    else none

/-- Unsigned numeric part of a CPython float literal:
`digits [. digits] [exp]` or `. digits [exp]`.  The denoted value is returned
exactly as a decimal mantissa and shift: the pair `(m, k)` stands for
`m * 10 ^ k`.  (It is carried unreduced so that every definition evaluates by
kernel reduction; no claim compares values across distinct tokens.) -/
def parseNumber (s : Chars) : Option (Nat × Int) :=
  match runDigits s with
  | some (iv, _, r1) =>
    match r1 with
    | '.' :: t =>
      match runDigits t with
      | some (fv, fc, r2) => parseExp (iv * 10 ^ fc + fv) (-(fc : Int)) r2
      | none => parseExp iv 0 t
    | _ => parseExp iv 0 r1
  | none =>
    match s with
    | '.' :: t =>
      match runDigits t with
      | some (fv, fc, r2) => parseExp fv (-(fc : Int)) r2
      | none => none
    | _ => none

/-- Result of Python `float(token)`: a finite value, an infinity, or nan.
`finite num shift` denotes the exact decimal value `num * 10 ^ shift` of the
literal (binary rounding is irrelevant to the routing behaviour verified
here). -/
inductive PyFloat where
  | finite (num : Int) (shift : Int)
  | inf
  | neginf
  | nan
deriving DecidableEq

/-- Body of `pyFloatOf` after the optional sign has been consumed. -/
def pyFloatOfUnsigned (neg : Bool) (u : Chars) : Option PyFloat :=
  if pyLower u = strData "inf" || pyLower u = strData "infinity" then
    some (if neg then PyFloat.neginf else PyFloat.inf)
  else if pyLower u = strData "nan" then some PyFloat.nan
  else
    match parseNumber u with
    | some (m, k) => some (PyFloat.finite (if neg then -(m : Int) else (m : Int)) k)
    | none => none

/-- Python `float(s)` on a string: strip whitespace, optional sign, then the
special words inf / infinity / nan (case-insensitive) or a numeric literal;
`none` models the `ValueError` raised on anything else. -/
def pyFloatOf (s : Chars) : Option PyFloat :=
  match pyStrip s with
  | '+' :: r => pyFloatOfUnsigned false r
  | '-' :: r => pyFloatOfUnsigned true r
  | t => pyFloatOfUnsigned false t

/-- Python no-argument `str.split()`: split on runs of whitespace, dropping
empty pieces; `acc` holds the current word reversed. -/
def splitWsGo : Chars → Chars → List Chars
  | acc, [] => if acc = [] then [] else [acc.reverse]
  | acc, c :: t =>
    if pyIsSpace c then
      if acc = [] then splitWsGo [] t else acc.reverse :: splitWsGo [] t
    else splitWsGo (c :: acc) t

/-- Python `s.split()` (no separator argument). -/
def pySplitWs (s : Chars) : List Chars := splitWsGo [] s

/-- `lat, lon = map(float, location.split())` of `process_query`: succeeds
exactly when the split yields two tokens and both parse as Python floats;
every failure (wrong arity or a bad token) raises `ValueError` in the source
and is modelled as `none`. -/
def parseLatLon (loc : Chars) : Option (PyFloat × PyFloat) :=
  match pySplitWs loc with
  | [a, b] =>
    match pyFloatOf a, pyFloatOf b with
    | some x, some y => some (x, y)
    | _, _ => none
  | _ => none

/-- A value bound to a tool-call parameter: a string or a parsed float. -/
inductive PVal where
  | s (v : Chars)
  | f (v : PyFloat)
deriving DecidableEq

/-- Observable outcome of `process_query`'s routing: a tool call with named
parameters, a direct text reply made without any tool or model invocation, or
the fallthrough to the ollama chat model with its messages list. -/
inductive Route where
  | toolCall (name : String) (params : List (String × PVal))
  | reply (text : Chars)
  | chat (model : String) (messages : List (String × Chars))
deriving DecidableEq

/-- The first trigger phrase of `process_query`. -/
def alertTrigger : Chars := strData "weather alert in"

/-- The second trigger phrase of `process_query`. -/
def forecastTrigger : Chars := strData "weather forecast for"

/-- The fixed message returned when forecast-argument parsing fails. -/
def invalidMsg : Chars :=
  strData "Invalid location format. Please provide latitude and longitude."

/-- `MCPClient.process_query` (src/client.py lines 57-76), up to the routing
decision: which tool is called with which parameters, or which text is
returned directly, or which messages go to the chat model.  Note that the
trigger tests are made on `query.lower()` while the splits are made on the
original `query` with the lowercase trigger as separator, exactly as in the
source. -/
def processQuery (query : Chars) : Route :=
  if occurs alertTrigger (pyLower query) then
    Route.toolCall "get_alerts"
      [("state", PVal.s (pyUpper (pyStrip (splitLast alertTrigger query))))]
  else if occurs forecastTrigger (pyLower query) then
    match parseLatLon (pyStrip (splitLast forecastTrigger query)) with
    | some (lat, lon) =>
      Route.toolCall "get_forecast" [("latitude", PVal.f lat), ("longitude", PVal.f lon)]
    | none => Route.reply invalidMsg
  else
    Route.chat "llama3.2:latest" [("user", query)]

/-- Normalized content of a successful `session.call_tool` result
(`result.content` in the source): either a Python list (each item represented
here by its `str(...)` text) or any other single value (represented by its
`str(...)` text). -/
inductive MCPContent where
  | items (l : List Chars)
  | single (s : Chars)
deriving DecidableEq

/-- The remote-call collaborator (`self.session.call_tool`): for a tool name
and parameter mapping it either returns content or raises an exception with
the given message. -/
abbrev SessionOracle := String → List (String × PVal) → Except Chars MCPContent

/-- Observable outcome of `MCPClient.call_mcp_tool`: the returned text and the
list of remote calls performed through the session.  The function is total:
no exception ever escapes it. -/
structure CallOutcome where
  output : Chars
  remote : List (String × List (String × PVal))
deriving DecidableEq

/-- `MCPClient.call_mcp_tool` (src/client.py lines 41-55): if `tool_name` is a
key of `self.available_tools`, call the session and normalize (a list is
joined with newlines after `str` of each item, anything else is `str`-ed),
catching any exception as an error text; otherwise report the tool as not
available without touching the session. -/
def callMcpTool (registry : List String) (sess : SessionOracle)
    (name : String) (params : List (String × PVal)) : CallOutcome :=
  if name ∈ registry then
    match sess name params with
    | Except.ok (MCPContent.items l) =>
      { output := List.intercalate ['\n'] l, remote := [(name, params)] }
    | Except.ok (MCPContent.single s) => { output := s, remote := [(name, params)] }
    | Except.error e =>
      { output := strData "Error calling tool " ++ strData name ++ strData ": " ++ e,
        remote := [(name, params)] }
  else
    { output := strData "Tool " ++ strData name ++ strData " not available.", remote := [] }

/-- One turn's input event in the chat loop: `input("\nQuery: ")` either
returns a line or raises (e.g. `EOFError`); both are caught by the loop's
`try`. -/
abbrev InputEv := Except Chars Chars

/-- The `process_query` collaborator as seen by the chat loop: returns a
response or raises (e.g. an ollama failure) with the given message. -/
abbrev ProcOracle := Chars → Except Chars Chars

/-- Observable trace of `MCPClient.chat_loop` over a finite list of input
events: the texts printed per turn (without console newlines) and the queries
passed to `process_query`. -/
structure LoopTrace where
  outputs : List Chars
  processed : List Chars
deriving DecidableEq

/-- `MCPClient.chat_loop` (src/client.py lines 78-94) over a finite input
stream: strip the line, break on a case-insensitive `quit`, otherwise process
the query and print the response; any exception in the turn body is caught,
printed as `Error: {message}`, and the loop continues. -/
def chatLoop (proc : ProcOracle) : List InputEv → LoopTrace
  | [] => { outputs := [], processed := [] }
  | ev :: rest =>
    match ev with
    | Except.error e =>
      let t := chatLoop proc rest
      { outputs := (strData "Error: " ++ e) :: t.outputs, processed := t.processed }
    | Except.ok raw =>
      let q := pyStrip raw
      if pyLower q = strData "quit" then { outputs := [], processed := [] }
      else
        match proc q with
        | Except.ok resp =>
          let t := chatLoop proc rest
          { outputs := resp :: t.outputs, processed := q :: t.processed }
        | Except.error e =>
          let t := chatLoop proc rest
          { outputs := (strData "Error: " ++ e) :: t.outputs, processed := q :: t.processed }

/-- Whether an input event is the explicit quit command: a successfully read
line that, stripped and lowercased, equals `quit`. -/
def isQuitEv : InputEv → Bool
  | Except.ok raw => pyLower (pyStrip raw) == strData "quit"
  | Except.error _ => false

/-- How one run of `main` ended: the usage message with exit status 1 when no
server-script argument was given, or the `try/finally` block completing,
either normally or with a propagated exception message. -/
inductive MainResult where
  | usageExit
  | finished (r : Except Chars Unit)

/-- Observable trace of `main`: its result and how many times
`client.cleanup()` (the release of the `AsyncExitStack`) ran. -/
structure MainTrace where
  result : MainResult
  cleanups : Nat

/-- `main` (src/client.py lines 100-110): check the argument count, then run
`connect_to_server` and `chat_loop` inside `try`, with `client.cleanup()` in
`finally`.  `connect` and `runLoop` are the outcomes of the two awaited calls;
`runLoop` is not reached when `connect` raises. -/
def mainRun (argc : Nat) (connect : Except Chars Unit) (runLoop : Except Chars Unit) :
    MainTrace :=
  if argc < 2 then { result := MainResult.usageExit, cleanups := 0 }
  else
    match connect with
    | Except.error e => { result := MainResult.finished (Except.error e), cleanups := 1 }
    | Except.ok _ =>
      match runLoop with
      | Except.error e => { result := MainResult.finished (Except.error e), cleanups := 1 }
      | Except.ok _ => { result := MainResult.finished (Except.ok ()), cleanups := 1 }

/-! ### Lemmas about `occurs` and `splitLast`

`splitLast sep s` (the embedding of `s.split(sep)[-1]`) is characterised as
the suffix of `s` that follows the last separator consumed by the scan: it is
preceded by `sep` whenever `sep` occurs at all, and contains no occurrence of
`sep` itself. -/

theorem occurs_of_isPrefixOf {sep s : Chars} (h : sep.isPrefixOf s = true) :
    occurs sep s = true := by
  cases s with
  | nil =>
    cases sep with
    | nil => rfl
    | cons d ds => simp at h
  | cons c t => simp [occurs, h]

theorem occurs_of_suffix {sep r s : Chars} (hsuf : r <:+ s) (h : occurs sep r = true) :
    occurs sep s = true := by
  obtain ⟨t, rfl⟩ := hsuf
  induction t with
  | nil => simpa using h
  | cons c t ih => simp [occurs, ih]

theorem occurs_mid (sep a b : Chars) : occurs sep (a ++ sep ++ b) = true := by
  have h1 : occurs sep (sep ++ b) = true :=
    occurs_of_isPrefixOf (List.isPrefixOf_iff_prefix.mpr (List.prefix_append sep b))
  have h2 : sep ++ b <:+ a ++ sep ++ b := by
    refine ⟨a, by simp⟩
  exact occurs_of_suffix h2 h1

theorem isPrefixOf_map (f : Char → Char) {p s : Chars} (h : p.isPrefixOf s = true) :
    (p.map f).isPrefixOf (s.map f) = true :=
  List.isPrefixOf_iff_prefix.mpr ((List.isPrefixOf_iff_prefix.mp h).map f)

theorem occurs_map (f : Char → Char) {sep q : Chars} (h : occurs sep q = true) :
    occurs (sep.map f) (q.map f) = true := by
  induction q with
  | nil =>
    cases sep with
    | nil => rfl
    | cons d ds => simp [occurs] at h
  | cons c t ih =>
    rcases Bool.or_eq_true_iff.mp h with h1 | h2
    · exact occurs_of_isPrefixOf (isPrefixOf_map f h1)
    · simp [occurs, ih h2]

theorem splitLastF_of_occurs_false {sep : Chars} (hsep : sep ≠ []) (fuel : Nat) {s : Chars}
    (h : occurs sep s = false) : splitLastF sep fuel s = s := by
  cases fuel with
  | zero => cases s <;> rfl
  | succ fuel =>
    cases s with
    | nil => rfl
    | cons c t =>
      cases sep with
      | nil => exact absurd rfl hsep
      | cons d ds =>
        have h' := h
        simp only [occurs, Bool.or_eq_false_iff] at h'
        simp [splitLastF, h'.1, h'.2]

theorem splitLastF_no_occurs {sep : Chars} (hsep : sep ≠ []) :
    ∀ fuel : Nat, ∀ s : Chars, s.length ≤ fuel →
      occurs sep (splitLastF sep fuel s) = false := by
  intro fuel
  induction fuel with
  | zero =>
    intro s hs
    have : s = [] := List.length_eq_zero.mp (Nat.le_zero.mp hs)
    subst this
    cases sep with
    | nil => exact absurd rfl hsep
    | cons d ds => rfl
  | succ fuel ih =>
    intro s hs
    cases s with
    | nil =>
      cases sep with
      | nil => exact absurd rfl hsep
      | cons d ds => rfl
    | cons c t =>
      cases sep with
      | nil => exact absurd rfl hsep
      | cons d ds =>
        have ht : t.length ≤ fuel := Nat.le_of_succ_le_succ hs
        by_cases h1 : (d :: ds).isPrefixOf (c :: t) = true
        · have hd : (t.drop ds.length).length ≤ fuel :=
            Nat.le_trans (List.length_drop ds.length t ▸ Nat.sub_le t.length ds.length) ht
          simpa [splitLastF, h1] using ih (t.drop ds.length) hd
        · by_cases h2 : occurs (d :: ds) t = true
          · simpa [splitLastF, h1, h2] using ih t ht
          · simp only [Bool.not_eq_true] at h1 h2
            simp [splitLastF, h1, h2, occurs]

theorem splitLastF_decomp {sep : Chars} (hsep : sep ≠ []) :
    ∀ fuel : Nat, ∀ s : Chars, s.length ≤ fuel → occurs sep s = true →
      ∃ u, s = u ++ sep ++ splitLastF sep fuel s := by
  intro fuel
  induction fuel with
  | zero =>
    intro s hs h
    have : s = [] := List.length_eq_zero.mp (Nat.le_zero.mp hs)
    subst this
    cases sep with
    | nil => exact absurd rfl hsep
    | cons d ds => simp [occurs] at h
  | succ fuel ih =>
    intro s hs h
    cases s with
    | nil =>
      cases sep with
      | nil => exact absurd rfl hsep
      | cons d ds => simp [occurs] at h
    | cons c t =>
      cases sep with
      | nil => exact absurd rfl hsep
      | cons d ds =>
        have ht : t.length ≤ fuel := Nat.le_of_succ_le_succ hs
        by_cases h1 : (d :: ds).isPrefixOf (c :: t) = true
        · obtain ⟨r, hr⟩ := List.isPrefixOf_iff_prefix.mp h1
          have hdr : r = t.drop ds.length := by
            have := congrArg (List.drop (d :: ds).length) hr
            simpa using this
          have hrlen : r.length ≤ fuel := by
            subst hdr
            exact Nat.le_trans (List.length_drop ds.length t ▸ Nat.sub_le t.length ds.length) ht
          by_cases h2 : occurs (d :: ds) r = true
          · obtain ⟨u, hu⟩ := ih r hrlen h2
            refine ⟨(d :: ds) ++ u, ?_⟩
            simp only [splitLastF, h1, if_true, ← hdr]
            calc c :: t = (d :: ds) ++ r := hr.symm
              _ = (d :: ds) ++ (u ++ (d :: ds) ++ splitLastF (d :: ds) fuel r) := by rw [← hu]
              _ = (d :: ds) ++ u ++ (d :: ds) ++ splitLastF (d :: ds) fuel r := by simp
          · have h2' : occurs (d :: ds) r = false := Bool.not_eq_true _ ▸ by
              simpa using h2
            have hid : splitLastF (d :: ds) fuel r = r :=
              splitLastF_of_occurs_false hsep fuel h2'
            refine ⟨[], ?_⟩
            simp only [splitLastF, h1, if_true, ← hdr, hid]
            simpa using hr.symm
        · by_cases h2 : occurs (d :: ds) t = true
          · obtain ⟨u, hu⟩ := ih t ht h2
            refine ⟨c :: u, ?_⟩
            simp only [splitLastF, h1, if_false, h2, if_true]
            simpa using hu
          · exfalso
            simp only [Bool.not_eq_true] at h1 h2
            simp [occurs, h1, h2] at h

theorem occurs_splitLast {sep : Chars} (hsep : sep ≠ []) (s : Chars) :
    occurs sep (splitLast sep s) = false :=
  splitLastF_no_occurs hsep s.length s (Nat.le_refl _)

theorem splitLast_decomp {sep s : Chars} (hsep : sep ≠ []) (h : occurs sep s = true) :
    ∃ u, s = u ++ sep ++ splitLast sep s :=
  splitLastF_decomp hsep s.length s (Nat.le_refl _) h

theorem splitLast_of_occurs_false {sep s : Chars} (hsep : sep ≠ [])
    (h : occurs sep s = false) : splitLast sep s = s :=
  splitLastF_of_occurs_false hsep s.length h

theorem splitLast_suffix {sep s : Chars} (hsep : sep ≠ []) : splitLast sep s <:+ s := by
  by_cases h : occurs sep s = true
  · obtain ⟨u, hu⟩ := splitLast_decomp hsep h
    exact ⟨u ++ sep, by simpa using hu.symm⟩
  · rw [splitLast_of_occurs_false hsep (Bool.not_eq_true _ ▸ by simpa using h)]

/-! ### Branch lemmas for `processQuery` -/

theorem processQuery_alert {q : Chars} (h : occurs alertTrigger (pyLower q) = true) :
    processQuery q = Route.toolCall "get_alerts"
      [("state", PVal.s (pyUpper (pyStrip (splitLast alertTrigger q))))] := by
  simp [processQuery, h]

theorem processQuery_forecast {q : Chars} (h1 : occurs alertTrigger (pyLower q) = false)
    (h2 : occurs forecastTrigger (pyLower q) = true) :
    processQuery q =
      (match parseLatLon (pyStrip (splitLast forecastTrigger q)) with
        | some (lat, lon) => Route.toolCall "get_forecast"
            [("latitude", PVal.f lat), ("longitude", PVal.f lon)]
        | none => Route.reply invalidMsg) := by
  simp [processQuery, h1, h2]

theorem processQuery_chat {q : Chars} (h1 : occurs alertTrigger (pyLower q) = false)
    (h2 : occurs forecastTrigger (pyLower q) = false) :
    processQuery q = Route.chat "llama3.2:latest" [("user", q)] := by
  simp [processQuery, h1, h2]

/-- Occurrence of a literal (lowercase) trigger survives `pyLower`. -/
theorem occurs_pyLower_of_occurs {sep q : Chars} (hl : sep.map Char.toLower = sep)
    (h : occurs sep q = true) : occurs sep (pyLower q) = true := by
  have h1 := occurs_map Char.toLower h
  rwa [hl] at h1

/-- The final segment kept by `splitLast` is the text after the last separator
occurrence: it follows a copy of the separator, contains no further
occurrence, and when a later copy of the separator is known to sit inside a
suffix `b`, the segment lies strictly inside `b`. -/
theorem splitLast_after_last {sep q a b : Chars} (hsep : sep ≠ [])
    (hq : q = a ++ sep ++ b) (hb : occurs sep b = true) :
    (∃ u, q = u ++ sep ++ splitLast sep q) ∧
      occurs sep (splitLast sep q) = false ∧
      (splitLast sep q).length < b.length := by
  have hocc : occurs sep q = true := by rw [hq]; exact occurs_mid sep a b
  have hdec := splitLast_decomp hsep hocc
  have hno := occurs_splitLast hsep q
  have hsuf : splitLast sep q <:+ q := splitLast_suffix hsep
  have hbsuf : b <:+ q := ⟨a ++ sep, by rw [hq]⟩
  refine ⟨hdec, hno, ?_⟩
  rcases List.suffix_or_suffix_of_suffix hsuf hbsuf with h | h
  · rcases Nat.lt_or_ge (splitLast sep q).length b.length with hlt | hge
    · exact hlt
    · exfalso
      have heq : splitLast sep q = b := h.eq_of_length_le hge
      rw [heq, hb] at hno
      exact Bool.true_eq_false.mp hno
  · exfalso
    have htrue := occurs_of_suffix h hb
    rw [htrue] at hno
    exact Bool.true_eq_false.mp hno

/-! ### The claims -/

/-- Claim C1, counterexample.  The claim asserts that for every query
containing "weather alert in" in any letter case, the extracted region code is
the trimmed upper-cased remainder after the trigger.  For the query
`Weather Alert In ca` that remainder is `ca`, so the claim predicts the call
`get_alerts` with state `CA`; but the code splits the original (mixed-case)
query on the lowercase trigger, finds no occurrence, and passes the entire
query upper-cased as the state. -/
theorem c1_counterexample :
    processQuery (strData "Weather Alert In ca") =
      Route.toolCall "get_alerts" [("state", PVal.s (strData "WEATHER ALERT IN CA"))] ∧
    strData "WEATHER ALERT IN CA" ≠ strData "CA" :=
  ⟨by decide, by decide⟩

/-- Claim C1, amended: for every query whose lowercased form contains
"weather alert in", `process_query` invokes `get_alerts` with exactly the
single parameter `state`, whose value is the trimmed upper-cased final segment
of the **original** query split on the exact lowercase trigger; when the
literal lowercase trigger occurs in the query this segment is the text after
its last occurrence (it follows a copy of the trigger and contains no further
occurrence), and when the trigger occurs only in a different letter case the
segment is the entire query. -/
theorem c1_alert_extraction (q : Chars)
    (h : occurs alertTrigger (pyLower q) = true) :
    processQuery q = Route.toolCall "get_alerts"
      [("state", PVal.s (pyUpper (pyStrip (splitLast alertTrigger q))))] ∧
    (occurs alertTrigger q = true →
      (∃ u, q = u ++ alertTrigger ++ splitLast alertTrigger q) ∧
        occurs alertTrigger (splitLast alertTrigger q) = false) ∧
    (occurs alertTrigger q = false → splitLast alertTrigger q = q) := by
  refine ⟨processQuery_alert h, fun ho => ⟨splitLast_decomp (by decide) ho,
    occurs_splitLast (by decide) q⟩, fun ho => splitLast_of_occurs_false (by decide) ho⟩

/-- Witness for the amended C1 at the spec's own example `weather alert in ca`:
the trigger occurs literally and the state is `CA`. -/
theorem c1_alert_extraction_witness :
    occurs alertTrigger (pyLower (strData "weather alert in ca")) = true ∧
    processQuery (strData "weather alert in ca") =
      Route.toolCall "get_alerts" [("state", PVal.s (strData "CA"))] := by
  refine ⟨by decide, ?_⟩
  rw [(c1_alert_extraction (strData "weather alert in ca") (by decide)).1]
  decide

/-- Claim C2, counterexample.  The claim asserts that any-case containment of
"weather forecast for" followed by two numeric tokens leads to a
`get_forecast` call with the two parsed numbers.  For
`Weather Forecast For 38.5 -120.2` the code splits the original query on the
lowercase trigger, finds no occurrence, tries to parse the whole query as two
floats, fails, and returns the invalid-format message instead of calling the
tool. -/
theorem c2_counterexample :
    processQuery (strData "Weather Forecast For 38.5 -120.2") = Route.reply invalidMsg ∧
    Route.reply invalidMsg ≠ Route.toolCall "get_forecast"
      [("latitude", PVal.f (PyFloat.finite 385 (-1))),
       ("longitude", PVal.f (PyFloat.finite (-1202) (-1)))] :=
  ⟨by decide, by decide⟩

/-- Claim C2, amended: for every query whose lowercased form contains
"weather forecast for" but not "weather alert in", if the trimmed final
segment of the original query split on the exact lowercase trigger consists of
exactly two whitespace-separated tokens that both parse as Python floats, then
`process_query` invokes `get_forecast` with the first value bound to
`latitude` and the second to `longitude`.  (A query containing the trigger
only in a different letter case takes the entire query as that segment, which
then fails to parse.) -/
theorem c2_forecast_invocation (q : Chars) (lat lon : PyFloat)
    (h1 : occurs alertTrigger (pyLower q) = false)
    (h2 : occurs forecastTrigger (pyLower q) = true)
    (h3 : parseLatLon (pyStrip (splitLast forecastTrigger q)) = some (lat, lon)) :
    processQuery q = Route.toolCall "get_forecast"
      [("latitude", PVal.f lat), ("longitude", PVal.f lon)] := by
  rw [processQuery_forecast h1 h2, h3]

/-- Witness for the amended C2 at the spec's own example
`weather forecast for 38.5 -120.2`: latitude 38.5 and longitude -120.2, each
carried as an exact decimal mantissa and shift. -/
theorem c2_forecast_invocation_witness :
    occurs alertTrigger (pyLower (strData "weather forecast for 38.5 -120.2")) = false ∧
    occurs forecastTrigger (pyLower (strData "weather forecast for 38.5 -120.2")) = true ∧
    parseLatLon (pyStrip (splitLast forecastTrigger
        (strData "weather forecast for 38.5 -120.2"))) =
      some (PyFloat.finite 385 (-1), PyFloat.finite (-1202) (-1)) ∧
    processQuery (strData "weather forecast for 38.5 -120.2") =
      Route.toolCall "get_forecast"
        [("latitude", PVal.f (PyFloat.finite 385 (-1))),
         ("longitude", PVal.f (PyFloat.finite (-1202) (-1)))] :=
  ⟨by decide, by decide, by decide,
    c2_forecast_invocation _ _ _ (by decide) (by decide) (by decide)⟩

/-- Claim C3: trigger matching is case-insensitive substring containment with
first-match-wins in a fixed order.  A query whose lowercased form contains
"weather alert in" is routed to the alerts path regardless of anything else
(in particular when it also contains "weather forecast for"); otherwise
containment of "weather forecast for" routes to the forecast path (tool call
or invalid-format reply); otherwise the query falls through to the chat-model
path. -/
theorem c3_trigger_order (q : Chars) :
    (occurs alertTrigger (pyLower q) = true →
      processQuery q = Route.toolCall "get_alerts"
        [("state", PVal.s (pyUpper (pyStrip (splitLast alertTrigger q))))]) ∧
    (occurs alertTrigger (pyLower q) = false →
      occurs forecastTrigger (pyLower q) = true →
      processQuery q =
        (match parseLatLon (pyStrip (splitLast forecastTrigger q)) with
          | some (lat, lon) => Route.toolCall "get_forecast"
              [("latitude", PVal.f lat), ("longitude", PVal.f lon)]
          | none => Route.reply invalidMsg)) ∧
    (occurs alertTrigger (pyLower q) = false →
      occurs forecastTrigger (pyLower q) = false →
      processQuery q = Route.chat "llama3.2:latest" [("user", q)]) :=
  ⟨fun h => processQuery_alert h,
   fun h1 h2 => processQuery_forecast h1 h2,
   fun h1 h2 => processQuery_chat h1 h2⟩

/-- Witness for C3: a query containing both triggers goes to the alerts path;
a forecast-only query goes to the forecast path; a query with neither trigger
goes to the chat model with a single user message holding the raw query. -/
theorem c3_trigger_order_witness :
    processQuery (strData "weather alert in ca and weather forecast for 1 2") =
      Route.toolCall "get_alerts"
        [("state", PVal.s (strData "CA AND WEATHER FORECAST FOR 1 2"))] ∧
    processQuery (strData "weather forecast for 1 2") =
      Route.toolCall "get_forecast"
        [("latitude", PVal.f (PyFloat.finite 1 0)),
         ("longitude", PVal.f (PyFloat.finite 2 0))] ∧
    processQuery (strData "tell me a joke") =
      Route.chat "llama3.2:latest" [("user", strData "tell me a joke")] := by
  refine ⟨?_, ?_, ?_⟩
  · rw [(c3_trigger_order _).1 (by decide)]; decide
  · rw [(c3_trigger_order _).2.1 (by decide) (by decide)]; decide
  · exact (c3_trigger_order _).2.2 (by decide) (by decide)

/-- Claim C4: a forecast-routed query whose extracted remainder does not parse
as exactly two float tokens returns the fixed invalid-format message; the
result is a direct `Route.reply`, which by construction involves no tool call
and no model call. -/
theorem c4_invalid_location (q : Chars)
    (h1 : occurs alertTrigger (pyLower q) = false)
    (h2 : occurs forecastTrigger (pyLower q) = true)
    (h3 : parseLatLon (pyStrip (splitLast forecastTrigger q)) = none) :
    processQuery q = Route.reply invalidMsg := by
  rw [processQuery_forecast h1 h2, h3]

/-- Witness for C4 at the spec's own example `weather forecast for abc`
(non-numeric token) and at a three-token remainder. -/
theorem c4_invalid_location_witness :
    processQuery (strData "weather forecast for abc") = Route.reply invalidMsg ∧
    processQuery (strData "weather forecast for 1 2 3") = Route.reply invalidMsg :=
  ⟨c4_invalid_location _ (by decide) (by decide) (by decide),
   c4_invalid_location _ (by decide) (by decide) (by decide)⟩

/-- Claim C5: an unregistered tool name yields exactly the text
`Tool {name} not available.` with no remote call; `callMcpTool` is a total
function, so no exception is raised. -/
theorem c5_tool_not_available (registry : List String) (sess : SessionOracle)
    (name : String) (params : List (String × PVal)) (h : name ∉ registry) :
    callMcpTool registry sess name params =
      { output := strData "Tool " ++ strData name ++ strData " not available.",
        remote := [] } := by
  simp [callMcpTool, h]

/-- Witness for C5: an unknown tool name against the registry discovered from
the weather server. -/
theorem c5_tool_not_available_witness :
    ("get_weather" ∉ ["get_alerts", "get_forecast"]) ∧
    callMcpTool ["get_alerts", "get_forecast"]
        (fun _ _ => Except.ok (MCPContent.single [])) "get_weather" [] =
      { output := strData "Tool get_weather not available.", remote := [] } := by
  refine ⟨by decide, ?_⟩
  rw [c5_tool_not_available ["get_alerts", "get_forecast"]
    (fun _ _ => Except.ok (MCPContent.single [])) "get_weather" [] (by decide)]
  decide

/-- Claim C6: for a registered tool whose remote call raises with message `m`,
`call_mcp_tool` catches the exception and returns
`Error calling tool {name}: {m}`; the function is total, so nothing
propagates and the session stays usable. -/
theorem c6_tool_error_caught (registry : List String) (sess : SessionOracle)
    (name : String) (params : List (String × PVal)) (msg : Chars)
    (hreg : name ∈ registry) (herr : sess name params = Except.error msg) :
    callMcpTool registry sess name params =
      { output := strData "Error calling tool " ++ strData name ++ strData ": " ++ msg,
        remote := [(name, params)] } := by
  simp [callMcpTool, hreg, herr]

/-- Witness for C6: a registered tool whose remote call raises `boom`. -/
theorem c6_tool_error_caught_witness :
    callMcpTool ["get_alerts", "get_forecast"]
        (fun _ _ => Except.error (strData "boom")) "get_alerts"
        [("state", PVal.s (strData "CA"))] =
      { output := strData "Error calling tool get_alerts: boom",
        remote := [("get_alerts", [("state", PVal.s (strData "CA"))])] } := by
  rw [c6_tool_error_caught ["get_alerts", "get_forecast"]
    (fun _ _ => Except.error (strData "boom")) "get_alerts"
    [("state", PVal.s (strData "CA"))] (strData "boom") (by decide) rfl]
  decide

/-- Claim C7: for a registered tool whose remote call succeeds, the result is
normalized to one string — a list of content items is joined with newlines
after taking each item's string representation, and any other single content
value is returned as its string representation. -/
theorem c7_result_normalization (registry : List String) (sess : SessionOracle)
    (name : String) (params : List (String × PVal)) (hreg : name ∈ registry) :
    (∀ l, sess name params = Except.ok (MCPContent.items l) →
      callMcpTool registry sess name params =
        { output := List.intercalate ['\n'] l, remote := [(name, params)] }) ∧
    (∀ s, sess name params = Except.ok (MCPContent.single s) →
      callMcpTool registry sess name params =
        { output := s, remote := [(name, params)] }) := by
  constructor <;> intro x hx <;> simp [callMcpTool, hreg, hx]

/-- Witness for C7: a two-item list joins with a newline; a single value
passes through. -/
theorem c7_result_normalization_witness :
    callMcpTool ["get_alerts"]
        (fun _ _ => Except.ok (MCPContent.items [strData "a", strData "b"]))
        "get_alerts" [] =
      { output := strData "a" ++ '\n' :: strData "b", remote := [("get_alerts", [])] } ∧
    callMcpTool ["get_alerts"]
        (fun _ _ => Except.ok (MCPContent.single (strData "xyz"))) "get_alerts" [] =
      { output := strData "xyz", remote := [("get_alerts", [])] } := by
  refine ⟨?_, ?_⟩
  · rw [(c7_result_normalization ["get_alerts"]
      (fun _ _ => Except.ok (MCPContent.items [strData "a", strData "b"]))
      "get_alerts" [] (by decide)).1 [strData "a", strData "b"] rfl]
    decide
  · exact (c7_result_normalization ["get_alerts"]
      (fun _ _ => Except.ok (MCPContent.single (strData "xyz")))
      "get_alerts" [] (by decide)).2 (strData "xyz") rfl

/-- Claim C8: every per-turn failure is caught at the loop level.  A failing
input read prints `Error: {message}` and the loop continues; a non-quit line
whose processing raises prints `Error: {message}` (after the router was
invoked) and the loop continues; and over any finite input stream with no
quit command, every turn produces an output — no per-turn error terminates
the loop. -/
theorem c8_loop_error_resilience (proc : ProcOracle) :
    (∀ e rest, chatLoop proc (Except.error e :: rest) =
      { outputs := (strData "Error: " ++ e) :: (chatLoop proc rest).outputs,
        processed := (chatLoop proc rest).processed }) ∧
    (∀ raw m rest, pyLower (pyStrip raw) ≠ strData "quit" →
      proc (pyStrip raw) = Except.error m →
      chatLoop proc (Except.ok raw :: rest) =
        { outputs := (strData "Error: " ++ m) :: (chatLoop proc rest).outputs,
          processed := pyStrip raw :: (chatLoop proc rest).processed }) ∧
    (∀ evs : List InputEv, (∀ ev ∈ evs, isQuitEv ev = false) →
      (chatLoop proc evs).outputs.length = evs.length) := by
  refine ⟨fun e rest => rfl, fun raw m rest hq herr => ?_, fun evs hq => ?_⟩
  · simp [chatLoop, hq, herr]
  · induction evs with
    | nil => rfl
    | cons ev rest ih =>
      have hev := hq ev (List.mem_cons_self ev rest)
      have hrest : ∀ ev' ∈ rest, isQuitEv ev' = false :=
        fun ev' h' => hq ev' (List.mem_cons_of_mem _ h')
      cases ev with
      | error e => simp [chatLoop, ih hrest]
      | ok raw =>
        have hne : ¬ (pyLower (pyStrip raw) = strData "quit") := by
          simpa [isQuitEv] using hev
        cases hp : proc (pyStrip raw) with
        | ok resp => simp [chatLoop, hne, hp, ih hrest]
        | error m => simp [chatLoop, hne, hp, ih hrest]

/-- Witness for C8: with a model that always raises, a failed input read and a
failed turn each print an error message and the loop runs through the whole
stream. -/
theorem c8_loop_error_resilience_witness :
    chatLoop (fun _ => Except.error (strData "model down"))
        [Except.error (strData "eof"), Except.ok (strData "hi")] =
      { outputs := [strData "Error: eof", strData "Error: model down"],
        processed := [strData "hi"] } ∧
    (chatLoop (fun _ => Except.error (strData "model down"))
        [Except.error (strData "eof"), Except.ok (strData "hi")]).outputs.length = 2 := by
  have h := c8_loop_error_resilience (fun _ => Except.error (strData "model down"))
  refine ⟨?_, ?_⟩
  · rw [h.1 (strData "eof") [Except.ok (strData "hi")],
      h.2.1 (strData "hi") (strData "model down") [] (by decide) rfl]
    decide
  · exact h.2.2 _ (by decide)

/-- Claim C9: a line that, stripped and lowercased, equals `quit` ends the
loop immediately — no query is processed for that input or after it — and
`main` releases the session resources exactly once on every exit path that
reaches the `try` block: normal return, an exception from startup, or an
exception from the loop. -/
theorem c9_quit_and_cleanup :
    (∀ (proc : ProcOracle) (raw : Chars) (rest : List InputEv),
      pyLower (pyStrip raw) = strData "quit" →
      chatLoop proc (Except.ok raw :: rest) = { outputs := [], processed := [] }) ∧
    (∀ (argc : Nat) (connect runLoop : Except Chars Unit), 2 ≤ argc →
      (mainRun argc connect runLoop).cleanups = 1) := by
  constructor
  · intro proc raw rest h
    simp [chatLoop, h]
  · intro argc connect runLoop h
    have h2 : ¬ argc < 2 := Nat.not_lt.mpr h
    cases connect with
    | error e => simp [mainRun, h2]
    | ok u =>
      cases runLoop with
      | error e => simp [mainRun, h2]
      | ok u2 => simp [mainRun, h2]

/-- Witness for C9: an upper-case `QUIT` ends the loop with nothing processed
even though more input follows, and a run whose loop raises still cleans up
exactly once. -/
theorem c9_quit_and_cleanup_witness :
    chatLoop (fun q => Except.ok q)
        [Except.ok (strData "QUIT"), Except.ok (strData "later")] =
      { outputs := [], processed := [] } ∧
    (mainRun 2 (Except.ok ()) (Except.error (strData "boom"))).cleanups = 1 :=
  ⟨c9_quit_and_cleanup.1 (fun q => Except.ok q) (strData "QUIT")
      [Except.ok (strData "later")] (by decide),
   c9_quit_and_cleanup.2 2 (Except.ok ()) (Except.error (strData "boom")) (by decide)⟩

/-- Claim C10: when the lowercase trigger occurs more than once — the query
decomposes as `a ++ trigger ++ b` with another occurrence inside `b` — the
argument extracted is the final segment of the split: it follows a copy of
the trigger, contains no further occurrence of the trigger (i.e. it is the
text after the last occurrence), and lies strictly inside `b`, so it is not
the text after the first occurrence.  This holds for both triggers. -/
theorem c10_last_occurrence (q a b : Chars) :
    (q = a ++ alertTrigger ++ b → occurs alertTrigger b = true →
      processQuery q = Route.toolCall "get_alerts"
        [("state", PVal.s (pyUpper (pyStrip (splitLast alertTrigger q))))] ∧
      (∃ u, q = u ++ alertTrigger ++ splitLast alertTrigger q) ∧
      occurs alertTrigger (splitLast alertTrigger q) = false ∧
      (splitLast alertTrigger q).length < b.length) ∧
    (q = a ++ forecastTrigger ++ b → occurs forecastTrigger b = true →
      occurs alertTrigger (pyLower q) = false →
      processQuery q =
        (match parseLatLon (pyStrip (splitLast forecastTrigger q)) with
          | some (lat, lon) => Route.toolCall "get_forecast"
              [("latitude", PVal.f lat), ("longitude", PVal.f lon)]
          | none => Route.reply invalidMsg) ∧
      (∃ u, q = u ++ forecastTrigger ++ splitLast forecastTrigger q) ∧
      occurs forecastTrigger (splitLast forecastTrigger q) = false ∧
      (splitLast forecastTrigger q).length < b.length) := by
  constructor
  · intro hq hb
    have hocc : occurs alertTrigger q = true := by rw [hq]; exact occurs_mid _ _ _
    have hlow : occurs alertTrigger (pyLower q) = true :=
      occurs_pyLower_of_occurs (by decide) hocc
    obtain ⟨hdec, hno, hlen⟩ := splitLast_after_last (by decide) hq hb
    exact ⟨processQuery_alert hlow, hdec, hno, hlen⟩
  · intro hq hb hna
    have hocc : occurs forecastTrigger q = true := by rw [hq]; exact occurs_mid _ _ _
    have hlow : occurs forecastTrigger (pyLower q) = true :=
      occurs_pyLower_of_occurs (by decide) hocc
    obtain ⟨hdec, hno, hlen⟩ := splitLast_after_last (by decide) hq hb
    exact ⟨processQuery_forecast hna hlow, hdec, hno, hlen⟩

/-- Witness for C10: with two occurrences of the alert trigger, the state
comes from the text after the second occurrence (`NY`), not the first, and
the extracted segment is strictly shorter than the text after the first
occurrence. -/
theorem c10_last_occurrence_witness :
    processQuery (strData "weather alert in ca weather alert in ny") =
      Route.toolCall "get_alerts" [("state", PVal.s (strData "NY"))] ∧
    (splitLast alertTrigger (strData "weather alert in ca weather alert in ny")).length <
      (strData " ca weather alert in ny").length := by
  have h := (c10_last_occurrence (strData "weather alert in ca weather alert in ny")
      [] (strData " ca weather alert in ny")).1 (by decide) (by decide)
  refine ⟨?_, h.2.2.2⟩
  rw [h.1]
  decide

